import Mathlib

/-!
Verification of the OBS Studio "Limiter V2" audio filter
(`src/plugins/obs-filters/limiter-v2-filter.c`).

The C code is shallowly embedded: every `float` quantity is modelled as an
exact real number, and the IEEE non-finite values (NaN and ±Inf) that the
code repeatedly screens with `isfinite` are modelled explicitly by the sum
type `FV` for the caller-supplied sample values, which are the only place a
non-finite value can enter the pipeline.  In exact real arithmetic a finite
operation on finite operands is finite, so the code's `isfinite` checks on
internally computed reals are identically true; each such vacuous check is
noted in a comment at the definition that embeds it.
-/

namespace LimiterV2

noncomputable section

/-! Constants from `limiter-v2-filter.c` (clang-format block, lines 116-152). -/

def SMALL_EPSILON : ℝ := 1 / 10 ^ 10

def ADAPT_SENSITIVITY_THRESHOLD : ℝ := 5 / 100

def ADAPT_SPEED_FACTOR : ℝ := 15

def ADAPT_MAX_SPEEDUP_FACTOR : ℝ := 3

def MIN_FAST_RELEASE_MS : ℝ := 1

def FIXED_ATTACK_TIME_MS : ℝ := 1

def MIN_THRESHOLD_DB : ℝ := -60

def MAX_THRESHOLD_DB : ℝ := 0

def MIN_RELEASE_MS : ℝ := 1

def MAX_RELEASE_MS : ℝ := 1000

def MIN_OUTPUT_GAIN_DB : ℝ := -20

def MAX_OUTPUT_GAIN_DB : ℝ := 20

def MIN_LOOKAHEAD_MS : ℝ := 1 / 10

def MAX_LOOKAHEAD_MS : ℝ := 20

def MAX_AUDIO_CHANNELS : ℕ := 8

def NUM_ENV_HISTORY : ℕ := 3

/-- A C `float` as seen by the limiter: either a finite value (modelled as an
exact real) or a non-finite value (NaN or ±Inf; the code never distinguishes
the three non-finite kinds, it only ever tests `isfinite`). -/
inductive FV where
  | fin : ℝ → FV
  | nonfin : FV

/-- C `isfinite` on a sample value. -/
def FV.isfinite : FV → Bool
  | FV.fin _ => true
  | FV.nonfin => false

/-- The pattern `v = fabsf(x); if (!isfinite(v)) v = 0.0f;` used for the
instantaneous level in `analyze_envelope`: `fabsf` maps non-finite inputs to
non-finite outputs, which the check then coerces to 0. -/
def fabsCoerce : FV → ℝ
  | FV.fin a => |a|
  | FV.nonfin => 0

/-- Modelled from the spec: `db_to_mul` lives in OBS `media-io/audio-math.h`,
which is not under `src/`; the spec describes it as the dB→linear conversion
(`output_gain_linear (dB→linear)`, `convert to a linear multiplier`), the
standard `10^(db/20)`. -/
noncomputable def db_to_mul (db : ℝ) : ℝ := (10 : ℝ) ^ (db / 20)

/-- Modelled from the spec: `mul_to_db` lives in OBS `media-io/audio-math.h`,
which is not under `src/`; the spec describes it as the linear→dB conversion
(`if envelope[i] > ε, convert to dB`), the standard `20·log10`.  (The C
version returns -∞ at 0; the filter only calls it after checking
`env_lin > SMALL_EPSILON`, so that case is never exercised.) -/
noncomputable def mul_to_db (mul : ℝ) : ℝ := 20 * Real.logb 10 mul

/-- `gain_coefficient` (limiter-v2-filter.c:229-236). -/
noncomputable def gain_coefficient (sample_rate : ℕ) (time_ms : ℝ) : ℝ :=
  if sample_rate = 0 ∨ time_ms ≤ 0 then 0
  else Real.exp (-1 / ((sample_rate : ℝ) * (time_ms / 1000) + SMALL_EPSILON))

/-- Index into the 3-slot envelope history ring. -/
def histIdx (k : ℕ) : Fin 3 := ⟨k % 3, Nat.mod_lt _ (by norm_num)⟩

/-- The limiter instance state `struct limiter_v2_data` (lines 178-212),
without the OBS context pointer.  The growable `envelope_buf` scratch is not
stored: the embedding of `analyze_envelope` returns the per-block scratch
contents functionally (its reallocation, the one permitted in the hot path,
always succeeds in the model).  Each per-channel `circlebuf` is modelled as
the list of its in-flight samples, front first. -/
structure State where
  threshold_db : ℝ
  release_time_ms : ℝ
  output_gain_db : ℝ
  adaptive_release_enabled : Bool
  lookahead_enabled : Bool
  lookahead_time_ms : ℝ
  true_peak_enabled : Bool
  attack_coeff : ℝ
  release_coeff : ℝ
  output_gain : ℝ
  envelope : ℝ
  lookahead_circbuf : List (List FV)
  lookahead_samples : ℕ
  lookahead_buffers_initialized : Bool
  prev_env_vals : Fin 3 → ℝ
  prev_env_pos : ℕ
  sample_rate : ℕ
  num_channels : ℕ

/-- History ring read `prev_env_vals[(prev_env_pos + k) % NUM_ENV_HISTORY]`. -/
def envHist (st : State) (k : ℕ) : ℝ := st.prev_env_vals (histIdx k)

/-- `calculate_env_change_rate` (lines 249-259): sum over the two consecutive
gaps of the 3-slot history, divided by the C divisor
`(float)(NUM_ENV_HISTORY - 1 + SMALL_EPSILON)`.  That divisor is the
compile-time float constant `2.0f` exactly: the int `NUM_ENV_HISTORY - 1 = 2`
converts to `2.0f`, and `2.0f + 1e-10f` rounds back to `2.0f` because `1e-10`
is far below half an ulp of 2; the folded constant `2` is embedded. -/
noncomputable def calculate_env_change_rate (st : State) : ℝ :=
  (|envHist st (st.prev_env_pos + 1) - envHist st st.prev_env_pos| +
    |envHist st (st.prev_env_pos + 2) - envHist st (st.prev_env_pos + 1)|) / 2

/-- Linear interpolation `(1 - t) * current + t * next` from the body of
`get_inter_sample_peak_estimate`. -/
def interp (a b t : ℝ) : ℝ := (1 - t) * a + t * b

/-- `get_inter_sample_peak_estimate` (lines 395-409): 0 when either input is
non-finite, else the running `fmaxf` of `|a|`, `|b|` and the three points
interpolated at `t = 1/4, 2/4, 3/4` (`TP_OVERSAMPLE_FACTOR = 4`).  The loop
body's `isfinite(interpolated_sample)` test is identically true in exact
arithmetic (a combination of finite reals is finite), so every interpolated
point enters the maximum. -/
def get_inter_sample_peak_estimate : FV → FV → ℝ
  | FV.fin a, FV.fin b =>
      max (max (max (max |a| |b|) |interp a b (1 / 4)|) |interp a b (2 / 4)|)
        |interp a b (3 / 4)|
  | _, _ => 0

/-- The release coefficient chosen inside the per-sample loop of
`analyze_envelope` (lines 451-460).  The C code recomputes this for every
sample of every channel, but the history ring (`prev_env_vals`,
`prev_env_pos`) it reads is only advanced once, after the whole block, so the
chosen value is the same for every sample of the block; it is embedded as a
per-block constant. -/
noncomputable def current_release_coeff (st : State) : ℝ :=
  if st.adaptive_release_enabled then
    let env_change_rate := calculate_env_change_rate st
    if env_change_rate > ADAPT_SENSITIVITY_THRESHOLD then
      let release_factor :=
        max 1 (min ADAPT_MAX_SPEEDUP_FACTOR (env_change_rate * ADAPT_SPEED_FACTOR))
      let fast_release_time_ms := max (st.release_time_ms / release_factor) MIN_FAST_RELEASE_MS
      gain_coefficient st.sample_rate fast_release_time_ms
    else st.release_coeff
  else st.release_coeff

/-- The per-sample instantaneous level `input_env` of `analyze_envelope`
(lines 443-449) along one channel: the true-peak estimate of
`(sample[i], sample[i+1])` when true-peak is enabled and `i` is not the last
index of the block, else `fabsf(sample[i])`; non-finite values are coerced to
0 (the true-peak estimate is finite by construction, so only the `fabsf`
branch can see a non-finite value). -/
def input_env_list (tp : Bool) : List FV → List ℝ
  | [] => []
  | [x] => [fabsCoerce x]
  | x :: y :: rest =>
      (if tp then get_inter_sample_peak_estimate x y else fabsCoerce x) ::
        input_env_list tp (y :: rest)

/-- One step of the one-pole smoothing filter (lines 462-467): attack
coefficient when the signal is rising, release coefficient otherwise, then
the coercion of non-finite (vacuous in exact arithmetic) or sub-epsilon
results to 0. -/
noncomputable def smooth_step (attack_coeff release_coeff current_env input_env : ℝ) : ℝ :=
  let e :=
    if current_env < input_env then input_env + attack_coeff * (current_env - input_env)
    else input_env + release_coeff * (current_env - input_env)
  if e < SMALL_EPSILON then 0 else e

/-- The smoothed per-sample envelope along one channel, starting from the
stored block-initial envelope value. -/
noncomputable def envelope_channel (ac rc : ℝ) : ℝ → List ℝ → List ℝ
  | _, [] => []
  | e, lvl :: rest =>
      let e2 := smooth_step ac rc e lvl
      e2 :: envelope_channel ac rc e2 rest

/-- The per-block contents of `envelope_buf` computed by `analyze_envelope`
(lines 434-471): the buffer is zeroed (`memset`), then for each channel with
index below both `num_channels` and `MAX_AUDIO_CHANNELS` the smoothed
per-sample envelope (each channel restarting from the stored `envelope`) is
folded in as a pointwise running maximum.  Only the first `num_samples`
samples of a channel are read (`for i < num_samples`).  NULL channel
pointers, skipped by the C code, are modelled as absent channels. -/
noncomputable def envelope_scratch (st : State) (samples : List (List FV))
    (num_samples : ℕ) : List ℝ :=
  (samples.take (min st.num_channels MAX_AUDIO_CHANNELS)).foldl
    (fun buf ch =>
      List.zipWith max buf
        (envelope_channel st.attack_coeff (current_release_coeff st) st.envelope
          (input_env_list st.true_peak_enabled (ch.take num_samples))))
    (List.replicate num_samples 0)

/-- `analyze_envelope` (lines 425-478): returns the updated state together
with the scratch buffer contents.  The early return at `num_samples == 0` is
embedded; the `ensure_env_buffer` allocation always succeeds in the model.
After the loop, `envelope` becomes the last scratch entry (its `isfinite`
coercion is vacuous in exact arithmetic) and is pushed into the 3-slot
history ring at the advanced cursor. -/
noncomputable def analyze_envelope (st : State) (samples : List (List FV))
    (num_samples : ℕ) : State × List ℝ :=
  if num_samples = 0 then (st, [])
  else
    let buf := envelope_scratch st samples num_samples
    let env2 := buf.getLastD st.envelope
    let pos2 := (st.prev_env_pos + 1) % NUM_ENV_HISTORY
    ({ st with
        envelope := env2
        prev_env_pos := pos2
        prev_env_vals := Function.update st.prev_env_vals (histIdx pos2) env2 },
      buf)

/-- The per-sample gain-reduction multiplier of `process_compression`
(lines 500-510).  The C checks `isfinite(env_db)` (true here: the argument
exceeds `SMALL_EPSILON > 0`, so its log is a real) and coerces a non-finite
multiplier to 0 (vacuous: a real power of 10 is a real). -/
noncomputable def gain_reduction_multiplier (threshold_db env_lin : ℝ) : ℝ :=
  if env_lin > SMALL_EPSILON then
    if mul_to_db env_lin > threshold_db then
      db_to_mul (min 0 (threshold_db - mul_to_db env_lin))
    else 1
  else 1

/-- `final_gain` of `process_compression` (lines 512-513): gain-reduction
multiplier times the static output gain; its `isfinite` coercion to 0 is
vacuous in exact arithmetic. -/
noncomputable def final_gain (st : State) (env_lin : ℝ) : ℝ :=
  gain_reduction_multiplier st.threshold_db env_lin * st.output_gain

/-- The per-sample write of `process_compression` (lines 515-521): a finite
sample is scaled in place by the final gain, a non-finite sample is replaced
by 0. -/
def apply_gain_sample (g : ℝ) : FV → FV
  | FV.fin x => FV.fin (x * g)
  | FV.nonfin => FV.fin 0

/-- The channel loop of `process_compression`, transposed: the C iterates
samples outer and channels inner, but each sample of each channel with index
below `num_channels` and `MAX_AUDIO_CHANNELS` is written exactly once with a
gain depending only on the sample index, so processing channel-by-channel is
the same map.  `gains` is the list of final gains for the block's sample
indices; samples of a channel beyond the block length are untouched. -/
def compress_channels (bound : ℕ) (gains : List ℝ) : ℕ → List (List FV) → List (List FV)
  | _, [] => []
  | c, ch :: rest =>
      (if c < bound then
          List.zipWith (fun g x => apply_gain_sample g x) gains ch ++ ch.drop gains.length
        else ch) ::
        compress_channels bound gains (c + 1) rest

/-- `process_compression` (lines 491-523): early return when the block is
empty or the scratch buffer is too short, else apply the shared per-sample
final gain to every processed channel. -/
noncomputable def process_compression (st : State) (samples : List (List FV))
    (envBuf : List ℝ) (num_samples : ℕ) : List (List FV) :=
  if num_samples = 0 ∨ envBuf.length < num_samples then samples
  else
    compress_channels (min st.num_channels MAX_AUDIO_CHANNELS)
      ((envBuf.take num_samples).map (final_gain st)) 0 samples

/-- Modelled from the spec: the FIFO ring `util/circlebuf.h` is not under
`src/`.  Per the spec the delay line does an in-place push-back of
`frameCount` fresh samples followed by a pop-front of `frameCount` samples;
on the list of in-flight samples (front first) that is: append the block,
then split off the front `frameCount` samples as the output.  Returns
(remaining ring contents, output block); samples of the block beyond
`frameCount` are untouched. -/
def circlebuf_push_pop (ring block : List FV) (n : ℕ) : List FV × List FV :=
  let q := ring ++ block.take n
  (q.drop n, q.take n ++ block.drop n)

/-- The per-channel lookahead loop of `limiter_v2_filter_audio`
(lines 989-1000): channels are delayed in order while the channel index is
below both `num_channels` and `MAX_AUDIO_CHANNELS` (the `bound` fuel); an
empty ring (the C defensive `size == 0 && capacity == 0` check for an
uninitialized buffer, unreachable once buffers are initialized since each
then holds at least one sample) stops the loop, leaving the remaining
channels undelayed.  Returns (new rings, delayed blocks). -/
def delay_go (n : ℕ) : List (List FV) → List (List FV) → ℕ → List (List FV) × List (List FV)
  | rs, bs, 0 => (rs, bs)
  | [], bs, _ + 1 => ([], bs)
  | r :: rs, [], _ + 1 => (r :: rs, [])
  | r :: rs, b :: bs, k + 1 =>
      if r.isEmpty then (r :: rs, b :: bs)
      else
        let pp := circlebuf_push_pop r b n
        let rest := delay_go n rs bs k
        (pp.1 :: rest.1, pp.2 :: rest.2)

/-- `update_lookahead_buffers` (lines 304-381): frees any existing rings,
then — when lookahead is enabled with a positive sample count and at least
one channel — builds one ring per channel, each pre-filled with exactly
`lookahead_samples` zero samples.  Ring capacity is
`lookahead_samples + block_estimate`; capacity accounting and allocation
failure (which in C tears everything down and reports failure so the caller
disables lookahead) are not modelled: allocation always succeeds. -/
def update_lookahead_buffers (st : State) : State :=
  if st.lookahead_enabled = false ∨ st.lookahead_samples = 0 ∨ st.num_channels = 0 then
    { st with lookahead_circbuf := [], lookahead_buffers_initialized := false }
  else
    { st with
        lookahead_circbuf :=
          List.replicate st.num_channels (List.replicate st.lookahead_samples (FV.fin 0)),
        lookahead_buffers_initialized := true }

/-- The raw values read from the `obs_data_t` settings object in
`limiter_v2_update` (lines 841-848). -/
structure Settings where
  threshold : ℝ
  release_time : ℝ
  output_gain : ℝ
  adaptive_release_enabled : Bool
  lookahead_enabled : Bool
  lookahead_time_ms : ℝ
  true_peak_enabled : Bool

/-- Sample-rate fallback of `limiter_v2_update` (lines 820-827): 48000 Hz
when the audio system reports 0. -/
def effective_sample_rate (audio_sample_rate : ℕ) : ℕ :=
  if audio_sample_rate = 0 then 48000 else audio_sample_rate

/-- Channel clamp of `limiter_v2_update` (lines 816-819). -/
def effective_channels (audio_channels : ℕ) : ℕ := min audio_channels MAX_AUDIO_CHANNELS

/-- Normalization of the raw lookahead time (lines 850-855): clamp into
`[0, MAX_LOOKAHEAD_MS]`, raise to `MIN_LOOKAHEAD_MS` when lookahead is
enabled, force to 0 when it is disabled. -/
noncomputable def normalized_lookahead_ms (s : Settings) : ℝ :=
  let la0 := max 0 (min MAX_LOOKAHEAD_MS s.lookahead_time_ms)
  if s.lookahead_enabled ∧ la0 < MIN_LOOKAHEAD_MS then MIN_LOOKAHEAD_MS
  else if s.lookahead_enabled = false then 0
  else la0

/-- Lookahead sample count (lines 872-873): `(size_t)(sr·ms/1000 + 0.5)`,
i.e. round-to-nearest via floor of the shifted value (the cast truncates a
nonnegative value toward zero), raised to at least 1. -/
noncomputable def lookahead_samples_of (sample_rate : ℕ) (time_ms : ℝ) : ℕ :=
  let k := ⌊(sample_rate : ℝ) * time_ms / 1000 + 1 / 2⌋₊
  if k = 0 then 1 else k

/-- The settings/format/coefficient portion of `limiter_v2_update`
(lines 813-867): channel clamp and sample-rate fallback, the state reset on a
format change, the raw settings cache (threshold and output gain stored
unclamped), the lookahead-time normalization, and the derived coefficients.
The C code assigns `lookahead_enabled`/`lookahead_time_ms` only when they
changed; when they did not change the assignment is a no-op, so assigning
them unconditionally is the same state. -/
noncomputable def apply_settings (st : State) (s : Settings)
    (audio_sample_rate : ℕ) (audio_channels : ℕ) : State :=
  let num_channels := effective_channels audio_channels
  let current_sample_rate := effective_sample_rate audio_sample_rate
  let format_changed :=
    st.sample_rate ≠ current_sample_rate ∨ st.num_channels ≠ num_channels
  let st1 :=
    if format_changed then
      { st with
          sample_rate := current_sample_rate
          num_channels := num_channels
          envelope := 0
          prev_env_vals := fun _ => 0
          prev_env_pos := 0 }
    else st
  let st2 :=
    { st1 with
        threshold_db := s.threshold
        release_time_ms := s.release_time
        output_gain_db := s.output_gain
        adaptive_release_enabled := s.adaptive_release_enabled
        true_peak_enabled := s.true_peak_enabled }
  let st3 :=
    { st2 with
        lookahead_enabled := s.lookahead_enabled
        lookahead_time_ms := normalized_lookahead_ms s }
  let st4 :=
    { st3 with
        attack_coeff := gain_coefficient st3.sample_rate FIXED_ATTACK_TIME_MS
        release_time_ms := max MIN_RELEASE_MS (min MAX_RELEASE_MS st3.release_time_ms)
        output_gain := db_to_mul st3.output_gain_db }
  { st4 with release_coeff := gain_coefficient st4.sample_rate st4.release_time_ms }

/-- The condition `reset_lookahead` of `limiter_v2_update` (lines 829-839 and
856-862): the audio format changed, or the lookahead enablement or
(normalized) lookahead time differ from the stored ones. -/
abbrev lookahead_reset_needed (st : State) (s : Settings)
    (audio_sample_rate : ℕ) (audio_channels : ℕ) : Prop :=
  (st.sample_rate ≠ effective_sample_rate audio_sample_rate ∨
      st.num_channels ≠ effective_channels audio_channels) ∨
    (s.lookahead_enabled ≠ st.lookahead_enabled ∨
      normalized_lookahead_ms s ≠ st.lookahead_time_ms)

/-- The recomputation of `lookahead_samples` inside the reset branch of
`limiter_v2_update` (lines 869-875), evaluated on the already-updated
state. -/
noncomputable def new_lookahead_samples (st : State) : ℕ :=
  if st.lookahead_enabled = true ∧ MIN_LOOKAHEAD_MS ≤ st.lookahead_time_ms ∧
      0 < st.sample_rate ∧ 0 < st.num_channels then
    lookahead_samples_of st.sample_rate st.lookahead_time_ms
  else 0

/-- `limiter_v2_update` (lines 808-898): apply the settings, then rebuild the
lookahead delay line when the trigger fired.  The OBS-facing side effects
(latency reporting via `obs_source_set_audio_latency`, the initial
`envelope_buf` allocation) are external to the DSP state and not modelled.
The buffer rebuild always succeeds in the model, so the failure path that
forcibly disables lookahead is not taken. -/
noncomputable def limiter_v2_update (st : State) (s : Settings)
    (audio_sample_rate : ℕ) (audio_channels : ℕ) : State :=
  let st5 := apply_settings st s audio_sample_rate audio_channels
  if lookahead_reset_needed st s audio_sample_rate audio_channels then
    update_lookahead_buffers { st5 with lookahead_samples := new_lookahead_samples st5 }
  else st5

/-- `limiter_v2_filter_audio` (lines 973-1006) on one block: the guard for a
degenerate call, then (1) envelope analysis of the undelayed input, (2) the
in-place lookahead delay when active, (3) gain application against the
delayed samples.  Returns the updated state and the processed block. -/
noncomputable def limiter_v2_filter_audio (st : State) (samples : List (List FV))
    (frames : ℕ) : State × List (List FV) :=
  if frames = 0 ∨ st.sample_rate = 0 ∨ st.num_channels = 0 then (st, samples)
  else
    let lookahead_active :=
      st.lookahead_enabled = true ∧ st.lookahead_buffers_initialized = true ∧
        0 < st.lookahead_samples
    let a := analyze_envelope st samples frames
    let st1 := a.1
    let d :=
      if lookahead_active then
        delay_go frames st1.lookahead_circbuf samples
          (min st1.num_channels MAX_AUDIO_CHANNELS)
      else (st1.lookahead_circbuf, samples)
    let st2 := { st1 with lookahead_circbuf := d.1 }
    (st2, process_compression st2 d.2 a.2 frames)

/-- A concrete limiter state used to instantiate theorems at explicit
inputs: the default-ish configuration at 48 kHz stereo, lookahead off. -/
def zeroState : State where
  threshold_db := -6
  release_time_ms := 60
  output_gain_db := 0
  adaptive_release_enabled := true
  lookahead_enabled := false
  lookahead_time_ms := 0
  true_peak_enabled := true
  attack_coeff := 0
  release_coeff := 0
  output_gain := 1
  envelope := 0
  lookahead_circbuf := []
  lookahead_samples := 0
  lookahead_buffers_initialized := false
  prev_env_vals := fun _ => 0
  prev_env_pos := 0
  sample_rate := 48000
  num_channels := 2

/-- A concrete state whose envelope history is changing fast enough to
trigger the adaptive-release speed-up. -/
noncomputable def adaptState : State :=
  { zeroState with prev_env_vals := fun i => ((i : ℕ) : ℝ) / 5 }

/-- A settings object with every numeric field outside its documented range,
used to probe the clamping behavior of `limiter_v2_update`. -/
def badSettings : Settings where
  threshold := 10
  release_time := 5000
  output_gain := 30
  adaptive_release_enabled := true
  lookahead_enabled := true
  lookahead_time_ms := 50
  true_peak_enabled := true

/-- Concrete settings that enable lookahead at 5 ms, used to instantiate the
lookahead-delay claim. -/
def lookaheadSettings : Settings where
  threshold := -6
  release_time := 60
  output_gain := 0
  adaptive_release_enabled := true
  lookahead_enabled := true
  lookahead_time_ms := 5
  true_peak_enabled := false

/-! Theorems for the claims. -/

/-! General facts about the dB conversions, shared by several claims. -/

theorem db_to_mul_pos (x : ℝ) : 0 < db_to_mul x :=
  Real.rpow_pos_of_pos (by norm_num) _

theorem mul_to_db_db_to_mul (x : ℝ) : mul_to_db (db_to_mul x) = x := by
  rw [mul_to_db, db_to_mul, Real.logb_rpow (by norm_num) (by norm_num)]
  ring

theorem lt_mul_to_db (t e : ℝ) (h : db_to_mul t < e) : t < mul_to_db e := by
  have h10 : (1 : ℝ) < 10 := by norm_num
  have hlog := Real.logb_lt_logb h10 (db_to_mul_pos t) h
  rw [db_to_mul, Real.logb_rpow (by norm_num) (by norm_num)] at hlog
  rw [mul_to_db]
  linarith

theorem mul_to_db_le (t e : ℝ) (he : 0 < e) (h : e ≤ db_to_mul t) : mul_to_db e ≤ t := by
  have h10 : (1 : ℝ) < 10 := by norm_num
  have hlog := (Real.logb_le_logb h10 he (db_to_mul_pos t)).mpr h
  rw [db_to_mul, Real.logb_rpow (by norm_num) (by norm_num)] at hlog
  rw [mul_to_db]
  linarith

theorem db_to_mul_sub_mul_to_db (t e : ℝ) (he : 0 < e) :
    db_to_mul (t - mul_to_db e) = db_to_mul t / e := by
  rw [db_to_mul, db_to_mul, mul_to_db]
  have harg : (t - 20 * Real.logb 10 e) / 20 = t / 20 - Real.logb 10 e := by ring
  rw [harg, Real.rpow_sub (by norm_num : (0 : ℝ) < 10),
    Real.rpow_logb (by norm_num) (by norm_num) he]

/-! List access helpers used to state and prove per-sample facts. -/

theorem getD_zipWith {α β γ : Type} (f : α → β → γ) (as : List α) (bs : List β)
    (i : ℕ) (d : γ) (dA : α) (dB : β) (h1 : i < as.length) (h2 : i < bs.length) :
    (List.zipWith f as bs).getD i d = f (as.getD i dA) (bs.getD i dB) := by
  induction as generalizing bs i with
  | nil => simp at h1
  | cons a as ih =>
    cases bs with
    | nil => simp at h2
    | cons b bs =>
      cases i with
      | zero => simp
      | succ i =>
        simp only [List.zipWith_cons_cons, List.getD_cons_succ]
        exact ih bs i (by simpa using h1) (by simpa using h2)

theorem getD_map {α β : Type} (f : α → β) (l : List α) (i : ℕ) (d : α)
    (h : i < l.length) : (l.map f).getD i (f d) = f (l.getD i d) := by
  induction l generalizing i with
  | nil => simp at h
  | cons a l ih =>
    cases i with
    | zero => simp
    | succ i =>
      simp only [List.map_cons, List.getD_cons_succ]
      exact ih i (by simpa using h)

theorem getD_take {α : Type} (l : List α) (n i : ℕ) (d : α) (h : i < n) :
    (l.take n).getD i d = l.getD i d := by
  induction l generalizing n i with
  | nil => simp
  | cons a l ih =>
    cases n with
    | zero => omega
    | succ n =>
      cases i with
      | zero => simp
      | succ i =>
        simp only [List.take_succ_cons, List.getD_cons_succ]
        exact ih n i (by omega)

theorem getD_append_left {α : Type} (l1 l2 : List α) (i : ℕ) (d : α)
    (h : i < l1.length) : (l1 ++ l2).getD i d = l1.getD i d := by
  induction l1 generalizing i with
  | nil => simp at h
  | cons a l1 ih =>
    cases i with
    | zero => simp
    | succ i =>
      simp only [List.cons_append, List.getD_cons_succ]
      exact ih i (by simpa using h)

theorem compress_channels_getD (bound : ℕ) (gains : List ℝ) (k : ℕ)
    (samples : List (List FV)) (c : ℕ) (h : c < samples.length) :
    (compress_channels bound gains k samples).getD c [] =
      if k + c < bound then
        List.zipWith (fun g x => apply_gain_sample g x) gains (samples.getD c []) ++
          (samples.getD c []).drop gains.length
      else samples.getD c [] := by
  induction samples generalizing k c with
  | nil => simp at h
  | cons ch rest ih =>
    cases c with
    | zero => simp [compress_channels]
    | succ c =>
      simp only [compress_channels, List.getD_cons_succ]
      rw [ih (k + 1) c (by simpa using h)]
      have : k + 1 + c = k + (c + 1) := by omega
      rw [this]

/-! Facts about the gain-reduction multiplier, shared by several claims. -/

theorem gain_reduction_multiplier_of_le (t e : ℝ)
    (h : e ≤ SMALL_EPSILON ∨ e ≤ db_to_mul t) :
    gain_reduction_multiplier t e = 1 := by
  have heps : (0 : ℝ) < SMALL_EPSILON := by norm_num [SMALL_EPSILON]
  rw [gain_reduction_multiplier]
  by_cases h1 : e > SMALL_EPSILON
  · rw [if_pos h1]
    have h2 : e ≤ db_to_mul t := by
      rcases h with h | h
      · linarith
      · exact h
    exact if_neg (not_lt.mpr (mul_to_db_le _ _ (by linarith) h2))
  · rw [if_neg h1]

theorem gain_reduction_multiplier_of_gt (t e : ℝ) (h1 : SMALL_EPSILON < e)
    (h2 : t < mul_to_db e) :
    gain_reduction_multiplier t e = db_to_mul (t - mul_to_db e) := by
  rw [gain_reduction_multiplier, if_pos h1, if_pos h2,
    min_eq_right (by linarith : t - mul_to_db e ≤ 0)]

theorem gain_reduction_multiplier_pos (t e : ℝ) : 0 < gain_reduction_multiplier t e := by
  rw [gain_reduction_multiplier]
  split
  · split
    · exact db_to_mul_pos _
    · norm_num
  · norm_num

theorem zipWith_replicate_same {α β γ : Type} (f : α → β → γ) (n : ℕ) (a : α) (b : β) :
    List.zipWith f (List.replicate n a) (List.replicate n b) = List.replicate n (f a b) := by
  induction n with
  | zero => simp
  | succ n ih => simp [List.replicate_succ, ih]

theorem compress_channels_replicate (bound : ℕ) (g : ℝ) (n k m : ℕ) (x : FV)
    (h : k + m ≤ bound) :
    compress_channels bound (List.replicate n g) k
        (List.replicate m (List.replicate n x)) =
      List.replicate m (List.replicate n (apply_gain_sample g x)) := by
  induction m generalizing k with
  | zero => simp [compress_channels]
  | succ m ih =>
    simp only [List.replicate_succ, compress_channels]
    rw [if_pos (by omega)]
    rw [zipWith_replicate_same (fun g x => apply_gain_sample g x) n g x]
    simp only [List.length_replicate, List.drop_replicate]
    rw [ih (k + 1) (by omega)]
    simp

/-- Claim C5: in `process_compression`, an envelope value at or below the
linear threshold (or at most ε) yields a gain-reduction multiplier of exactly
1; one strictly above the threshold (and above ε) yields the multiplier
`10^((threshold_db - envelope_dB)/20) ≤ 1`; the final gain is applied
identically to every processed channel at a given sample index, and a
non-finite input sample is set to 0 instead of being multiplied. -/
theorem C5_per_sample_gain (st : State) :
    (∀ env_lin : ℝ,
        env_lin ≤ SMALL_EPSILON ∨ env_lin ≤ db_to_mul st.threshold_db →
        gain_reduction_multiplier st.threshold_db env_lin = 1) ∧
    (∀ env_lin : ℝ, SMALL_EPSILON < env_lin → db_to_mul st.threshold_db < env_lin →
        gain_reduction_multiplier st.threshold_db env_lin =
          db_to_mul (st.threshold_db - mul_to_db env_lin) ∧
        gain_reduction_multiplier st.threshold_db env_lin ≤ 1) ∧
    (∀ (samples : List (List FV)) (envBuf : List ℝ) (n c i : ℕ),
        c < samples.length → c < min st.num_channels MAX_AUDIO_CHANNELS →
        n ≤ envBuf.length → i < n → i < (samples.getD c []).length →
        ((process_compression st samples envBuf n).getD c []).getD i FV.nonfin =
          apply_gain_sample (final_gain st (envBuf.getD i 0))
            ((samples.getD c []).getD i FV.nonfin)) ∧
    (∀ g : ℝ, apply_gain_sample g FV.nonfin = FV.fin 0) := by
  refine ⟨fun e he => gain_reduction_multiplier_of_le _ _ he, ?_, ?_, fun g => rfl⟩
  · intro e h1 h2
    have hgt : st.threshold_db < mul_to_db e := lt_mul_to_db _ _ h2
    refine ⟨gain_reduction_multiplier_of_gt _ _ h1 hgt, ?_⟩
    rw [gain_reduction_multiplier_of_gt _ _ h1 hgt, db_to_mul]
    exact Real.rpow_le_one_of_one_le_of_nonpos (by norm_num)
      (div_nonpos_of_nonpos_of_nonneg (by linarith) (by norm_num))
  · intro samples envBuf n c i hc hcb hn hi hich
    rw [process_compression, if_neg (by omega : ¬(n = 0 ∨ envBuf.length < n))]
    rw [compress_channels_getD _ _ 0 samples c hc, if_pos (by simpa using hcb)]
    have hglen : ((envBuf.take n).map (final_gain st)).length = n := by
      simp only [List.length_map, List.length_take]
      omega
    have hzlen :
        i < (List.zipWith (fun g x => apply_gain_sample g x)
          ((envBuf.take n).map (final_gain st)) (samples.getD c [])).length := by
      rw [List.length_zipWith, hglen]
      omega
    rw [getD_append_left _ _ i _ hzlen]
    rw [getD_zipWith _ _ _ i _ (final_gain st 0) FV.nonfin (by omega) hich]
    rw [getD_map (final_gain st) _ i 0 (by simp [List.length_take]; omega)]
    rw [getD_take _ _ _ _ hi]

/-- Witness for C5 at a concrete state and concrete inputs, exercising all
four conjuncts (multiplier = 1 below threshold, formula above threshold,
shared per-channel application, non-finite sample zeroed). -/
theorem C5_per_sample_gain_witness :
    gain_reduction_multiplier zeroState.threshold_db 0 = 1 ∧
    (gain_reduction_multiplier zeroState.threshold_db 1 =
        db_to_mul (zeroState.threshold_db - mul_to_db 1) ∧
      gain_reduction_multiplier zeroState.threshold_db 1 ≤ 1) ∧
    ((process_compression zeroState [[FV.fin 2]] [1] 1).getD 0 []).getD 0 FV.nonfin =
      apply_gain_sample (final_gain zeroState (([(1 : ℝ)]).getD 0 0))
        (([[FV.fin 2]].getD 0 []).getD 0 FV.nonfin) ∧
    apply_gain_sample 3 FV.nonfin = FV.fin 0 := by
  have hthr : db_to_mul zeroState.threshold_db < 1 := by
    show db_to_mul (-6) < 1
    rw [db_to_mul]
    exact Real.rpow_lt_one_of_one_lt_of_neg (by norm_num) (by norm_num)
  refine ⟨?_, ?_, ?_, (C5_per_sample_gain zeroState).2.2.2 3⟩
  · exact (C5_per_sample_gain zeroState).1 0 (Or.inl (by norm_num [SMALL_EPSILON]))
  · exact (C5_per_sample_gain zeroState).2.1 1 (by norm_num [SMALL_EPSILON]) hthr
  · exact (C5_per_sample_gain zeroState).2.2.1 [[FV.fin 2]] [1] 1 0 0 (by norm_num)
      (by norm_num [zeroState, MAX_AUDIO_CHANNELS]) (by norm_num) (by norm_num) (by simp)

/-- Claim C1: once the smoothed envelope has settled to a constant input
level `L` above threshold, the settled per-sample gain brings the output peak
exactly to the ceiling: with the output gain's multiplicative factor removed
the settled peak never exceeds `10^(T/20)` (here it equals it, so the bound
holds with zero tolerance), and every sample `process_compression` produces
from such a block has magnitude exactly `10^(T/20)` times the linear output
gain. -/
theorem C1_settled_output_ceiling (st : State) (L x : ℝ)
    (hL : SMALL_EPSILON < L)
    (hthr : st.threshold_db < mul_to_db L)
    (hg : st.output_gain = db_to_mul st.output_gain_db)
    (hx : |x| = L) :
    L * gain_reduction_multiplier st.threshold_db L = db_to_mul st.threshold_db ∧
    L * gain_reduction_multiplier st.threshold_db L ≤ db_to_mul st.threshold_db ∧
    |x * final_gain st L| = db_to_mul st.threshold_db * st.output_gain ∧
    |x * final_gain st L| ≤ db_to_mul st.threshold_db * st.output_gain ∧
    (∀ n m : ℕ, m ≤ min st.num_channels MAX_AUDIO_CHANNELS →
      ∀ ch ∈ process_compression st (List.replicate m (List.replicate n (FV.fin x)))
          (List.replicate n L) n,
        ∀ v ∈ ch, v = FV.fin (x * final_gain st L)) := by
  have hL0 : (0 : ℝ) < L := lt_trans (by norm_num [SMALL_EPSILON]) hL
  have hA : L * gain_reduction_multiplier st.threshold_db L = db_to_mul st.threshold_db := by
    rw [gain_reduction_multiplier_of_gt _ _ hL hthr,
      db_to_mul_sub_mul_to_db _ _ hL0]
    field_simp
  have hC : |x * final_gain st L| = db_to_mul st.threshold_db * st.output_gain := by
    have hgain0 : 0 < final_gain st L := by
      rw [final_gain, hg]
      exact mul_pos (gain_reduction_multiplier_pos _ _) (db_to_mul_pos _)
    rw [abs_mul, hx, abs_of_pos hgain0, final_gain, ← mul_assoc, hA]
  refine ⟨hA, le_of_eq hA, hC, le_of_eq hC, ?_⟩
  intro n m hm ch hch v hv
  by_cases hn : n = 0
  · subst hn
    rw [process_compression, if_pos (Or.inl rfl)] at hch
    simp only [List.replicate] at hch
    have := List.eq_of_mem_replicate hch
    subst this
    simp at hv
  · rw [process_compression,
      if_neg (by simp only [List.length_replicate]; omega : ¬(n = 0 ∨ (List.replicate n L).length < n)),
      List.take_replicate, min_self, List.map_replicate,
      compress_channels_replicate _ _ _ _ _ _ (by omega)] at hch
    have h1 := List.eq_of_mem_replicate hch
    subst h1
    have h2 := List.eq_of_mem_replicate hv
    subst h2
    rfl

/-- Witness for C1 at the concrete state `zeroState` (threshold −6 dB, unit
output gain), constant input level `L = 1` (0 dBFS, above threshold). -/
theorem C1_settled_output_ceiling_witness :
    (1 : ℝ) * gain_reduction_multiplier zeroState.threshold_db 1 =
      db_to_mul zeroState.threshold_db ∧
    |(1 : ℝ) * final_gain zeroState 1| =
      db_to_mul zeroState.threshold_db * zeroState.output_gain ∧
    ∀ ch ∈ process_compression zeroState (List.replicate 1 (List.replicate 2 (FV.fin 1)))
        (List.replicate 2 (1 : ℝ)) 2,
      ∀ v ∈ ch, v = FV.fin (1 * final_gain zeroState 1) := by
  have hthr : zeroState.threshold_db < mul_to_db 1 := by
    rw [mul_to_db]
    show (-6 : ℝ) < 20 * Real.logb 10 1
    rw [Real.logb_one]
    norm_num
  have hg : zeroState.output_gain = db_to_mul zeroState.output_gain_db := by
    rw [db_to_mul]
    show (1 : ℝ) = (10 : ℝ) ^ ((0 : ℝ) / 20)
    norm_num
  have h := C1_settled_output_ceiling zeroState 1 1 (by norm_num [SMALL_EPSILON]) hthr hg
    (by norm_num)
  exact ⟨h.1, h.2.2.1, h.2.2.2.2 2 1 (by norm_num [zeroState, MAX_AUDIO_CHANNELS])⟩

/-- Claim C9: the coefficient function returns 0 if the sample rate is 0 or
the time constant is ≤ 0, otherwise `exp (-1 / (r·t/1000 + ε))`; in all
cases the returned value lies in `[0, 1)`. -/
theorem C9_gain_coefficient (r : ℕ) (t : ℝ) :
    gain_coefficient r t =
      (if r = 0 ∨ t ≤ 0 then 0
       else Real.exp (-1 / ((r : ℝ) * (t / 1000) + SMALL_EPSILON))) ∧
    0 ≤ gain_coefficient r t ∧ gain_coefficient r t < 1 := by
  refine ⟨rfl, ?_, ?_⟩
  · rw [gain_coefficient]
    split
    · exact le_refl 0
    · exact (Real.exp_pos _).le
  · rw [gain_coefficient]
    split
    · norm_num
    · rename_i h
      push_neg at h
      have hr : 0 < (r : ℝ) := by exact_mod_cast Nat.pos_of_ne_zero h.1
      have hd : 0 < (r : ℝ) * (t / 1000) + SMALL_EPSILON := by
        have h1 : 0 < (r : ℝ) * (t / 1000) := mul_pos hr (by linarith [h.2])
        have h2 : (0 : ℝ) < SMALL_EPSILON := by norm_num [SMALL_EPSILON]
        linarith
      exact Real.exp_lt_one_iff.mpr (div_neg_of_neg_of_pos (by norm_num) hd)

/-- Claim C7: the inter-sample peak estimator returns 0 when either input is
non-finite, and otherwise the maximum absolute value over the two endpoints
and the three points linearly interpolated as `(1-t)·a + t·b` at
`t = 1/4, 2/4, 3/4` (no interpolated point of finite endpoints can be
non-finite in exact arithmetic, so none is excluded). -/
theorem C7_inter_sample_peak (a b : ℝ) :
    get_inter_sample_peak_estimate FV.nonfin (FV.fin b) = 0 ∧
    get_inter_sample_peak_estimate (FV.fin a) FV.nonfin = 0 ∧
    get_inter_sample_peak_estimate FV.nonfin FV.nonfin = 0 ∧
    get_inter_sample_peak_estimate (FV.fin a) (FV.fin b) =
      max |a| (max |b| (max |(1 - 1 / 4) * a + (1 / 4) * b|
        (max |(1 - 2 / 4) * a + (2 / 4) * b| |(1 - 3 / 4) * a + (3 / 4) * b|))) := by
  refine ⟨rfl, rfl, rfl, ?_⟩
  simp only [get_inter_sample_peak_estimate, interp]
  rw [max_assoc, max_assoc, max_assoc]

/-- Claim C10: for finite inputs the 4× linear-interpolation oversampling can
never raise the estimate above the plain endpoint maximum: each interpolated
point is a convex combination of the endpoints, so the estimate equals
`max |a| |b|` exactly. -/
theorem C10_estimate_eq_endpoint_max (a b : ℝ) :
    get_inter_sample_peak_estimate (FV.fin a) (FV.fin b) = max |a| |b| := by
  have key : ∀ t : ℝ, 0 ≤ t → t ≤ 1 → |interp a b t| ≤ max |a| |b| := by
    intro t h0 h1
    have h2 : |interp a b t| ≤ (1 - t) * |a| + t * |b| := by
      calc |interp a b t| ≤ |(1 - t) * a| + |t * b| := abs_add _ _
        _ = (1 - t) * |a| + t * |b| := by
            rw [abs_mul, abs_mul, abs_of_nonneg (by linarith), abs_of_nonneg h0]
    have h3 : (1 - t) * |a| + t * |b| ≤ (1 - t) * max |a| |b| + t * max |a| |b| :=
      add_le_add (mul_le_mul_of_nonneg_left (le_max_left _ _) (by linarith))
        (mul_le_mul_of_nonneg_left (le_max_right _ _) h0)
    calc |interp a b t| ≤ (1 - t) * max |a| |b| + t * max |a| |b| := le_trans h2 h3
      _ = max |a| |b| := by ring
  simp only [get_inter_sample_peak_estimate]
  rw [max_eq_left (key (1 / 4) (by norm_num) (by norm_num)),
    max_eq_left (key (2 / 4) (by norm_num) (by norm_num)),
    max_eq_left (key (3 / 4) (by norm_num) (by norm_num))]

/-- Claim C6: with adaptive release enabled, the per-sample envelope change
rate is the average of the absolute differences over the 2 consecutive gaps
of the 3-slot history ring; when it exceeds `ADAPT_SENSITIVITY_THRESHOLD`
(0.05) the release coefficient is recomputed from the base release time
divided by `clamp(rate·15, 1, 3)` and floored at 1 ms, otherwise the base
release coefficient is used. -/
theorem C6_adaptive_release (st : State) (h : st.adaptive_release_enabled = true) :
    calculate_env_change_rate st =
      (∑ k ∈ Finset.range (NUM_ENV_HISTORY - 1),
          |envHist st (st.prev_env_pos + k + 1) - envHist st (st.prev_env_pos + k)|) /
        ((NUM_ENV_HISTORY : ℝ) - 1) ∧
    (ADAPT_SENSITIVITY_THRESHOLD < calculate_env_change_rate st →
      current_release_coeff st =
        gain_coefficient st.sample_rate
          (max (st.release_time_ms /
              (max 1 (min ADAPT_MAX_SPEEDUP_FACTOR
                (calculate_env_change_rate st * ADAPT_SPEED_FACTOR))))
            MIN_FAST_RELEASE_MS)) ∧
    (calculate_env_change_rate st ≤ ADAPT_SENSITIVITY_THRESHOLD →
      current_release_coeff st = st.release_coeff) := by
  refine ⟨?_, ?_, ?_⟩
  · rw [calculate_env_change_rate]
    have h2 : NUM_ENV_HISTORY - 1 = 2 := rfl
    rw [h2, Finset.sum_range_succ, Finset.sum_range_succ, Finset.sum_range_zero]
    have h3 : ((NUM_ENV_HISTORY : ℝ) - 1) = 2 := by norm_num [NUM_ENV_HISTORY]
    rw [h3]
    norm_num [Nat.add_assoc]
  · intro hrate
    simp only [current_release_coeff, h, if_true]
    rw [if_pos hrate]
  · intro hle
    simp only [current_release_coeff, h, if_true]
    rw [if_neg (not_lt.mpr hle)]

/-- Witness for C6: a state whose history gaps average to 1/5 > 0.05,
exercising the adaptive branch of the release-coefficient selection. -/
theorem C6_adaptive_release_witness :
    ADAPT_SENSITIVITY_THRESHOLD < calculate_env_change_rate adaptState ∧
    current_release_coeff adaptState =
      gain_coefficient adaptState.sample_rate
        (max (adaptState.release_time_ms /
            (max 1 (min ADAPT_MAX_SPEEDUP_FACTOR
              (calculate_env_change_rate adaptState * ADAPT_SPEED_FACTOR))))
          MIN_FAST_RELEASE_MS) := by
  have hrate : calculate_env_change_rate adaptState = 1 / 5 := by
    rw [calculate_env_change_rate]
    simp only [adaptState, zeroState, envHist, histIdx]
    norm_num
  have hgt : ADAPT_SENSITIVITY_THRESHOLD < calculate_env_change_rate adaptState := by
    rw [hrate, ADAPT_SENSITIVITY_THRESHOLD]
    norm_num
  exact ⟨hgt, (C6_adaptive_release adaptState rfl).2.1 hgt⟩

/-! Facts about the envelope smoothing pipeline, shared by several claims:
every value it produces is either exactly 0 or at least `SMALL_EPSILON`
(hence nonnegative), and the scratch buffer has one entry per sample. -/

theorem smooth_step_inv (ac rc e l : ℝ) :
    smooth_step ac rc e l = 0 ∨ SMALL_EPSILON ≤ smooth_step ac rc e l := by
  simp only [smooth_step]
  by_cases h : (if e < l then l + ac * (e - l) else l + rc * (e - l)) < SMALL_EPSILON
  · exact Or.inl (if_pos h)
  · rw [if_neg h]
    exact Or.inr (not_lt.mp h)

theorem envelope_channel_inv (ac rc : ℝ) (e : ℝ) (ls : List ℝ) :
    ∀ v ∈ envelope_channel ac rc e ls, v = 0 ∨ SMALL_EPSILON ≤ v := by
  induction ls generalizing e with
  | nil => simp [envelope_channel]
  | cons l ls ih =>
    intro v hv
    simp only [envelope_channel, List.mem_cons] at hv
    rcases hv with rfl | hv
    · exact smooth_step_inv ac rc e l
    · exact ih _ v hv

theorem zipWith_max_inv : ∀ (as bs : List ℝ),
    (∀ v ∈ as, v = 0 ∨ SMALL_EPSILON ≤ v) → (∀ v ∈ bs, v = 0 ∨ SMALL_EPSILON ≤ v) →
    ∀ v ∈ List.zipWith max as bs, v = 0 ∨ SMALL_EPSILON ≤ v := by
  intro as
  induction as with
  | nil => intro bs _ _; simp
  | cons a as ih =>
    intro bs ha hb
    cases bs with
    | nil => simp
    | cons b bs =>
      intro v hv
      simp only [List.zipWith_cons_cons, List.mem_cons] at hv
      rcases hv with rfl | hv
      · rcases max_choice a b with h | h <;> rw [h]
        · exact ha a (List.mem_cons_self a as)
        · exact hb b (List.mem_cons_self b bs)
      · exact ih bs (fun u hu => ha u (List.mem_cons_of_mem a hu))
          (fun u hu => hb u (List.mem_cons_of_mem b hu)) v hv

theorem envelope_scratch_inv (st : State) (samples : List (List FV)) (n : ℕ) :
    ∀ v ∈ envelope_scratch st samples n, v = 0 ∨ SMALL_EPSILON ≤ v := by
  rw [envelope_scratch]
  suffices h : ∀ (chans : List (List FV)) (acc : List ℝ),
      (∀ v ∈ acc, v = 0 ∨ SMALL_EPSILON ≤ v) →
      ∀ v ∈ chans.foldl
        (fun buf ch =>
          List.zipWith max buf
            (envelope_channel st.attack_coeff (current_release_coeff st) st.envelope
              (input_env_list st.true_peak_enabled (ch.take n)))) acc,
        v = 0 ∨ SMALL_EPSILON ≤ v by
    exact h _ _ (fun v hv => Or.inl (List.eq_of_mem_replicate hv))
  intro chans
  induction chans with
  | nil => intro acc hacc; simpa using hacc
  | cons ch chans ih =>
    intro acc hacc
    simp only [List.foldl_cons]
    exact ih _ (zipWith_max_inv _ _ hacc (envelope_channel_inv _ _ _ _))

theorem input_env_list_length (tp : Bool) (l : List FV) :
    (input_env_list tp l).length = l.length := by
  induction l with
  | nil => rfl
  | cons x l ih =>
    cases l with
    | nil => rfl
    | cons y l => simpa [input_env_list] using ih

theorem envelope_channel_length (ac rc : ℝ) (e : ℝ) (ls : List ℝ) :
    (envelope_channel ac rc e ls).length = ls.length := by
  induction ls generalizing e with
  | nil => rfl
  | cons l ls ih => simpa [envelope_channel] using ih _

theorem envelope_scratch_length (st : State) (samples : List (List FV)) (n : ℕ)
    (h : ∀ ch ∈ samples, n ≤ ch.length) :
    (envelope_scratch st samples n).length = n := by
  rw [envelope_scratch]
  suffices hs : ∀ (chans : List (List FV)) (acc : List ℝ),
      (∀ ch ∈ chans, n ≤ ch.length) → acc.length = n →
      (chans.foldl
        (fun buf ch =>
          List.zipWith max buf
            (envelope_channel st.attack_coeff (current_release_coeff st) st.envelope
              (input_env_list st.true_peak_enabled (ch.take n)))) acc).length = n by
    exact hs _ _ (fun ch hch => h ch (List.take_subset _ _ hch)) (List.length_replicate _ _)
  intro chans
  induction chans with
  | nil => intro acc _ hacc; simpa using hacc
  | cons ch chans ih =>
    intro acc hch hacc
    simp only [List.foldl_cons]
    refine ih _ (fun c hc => hch c (List.mem_cons_of_mem ch hc)) ?_
    rw [List.length_zipWith, hacc, envelope_channel_length, input_env_list_length,
      List.length_take]
    have := hch ch (List.mem_cons_self ch chans)
    omega

theorem getLastD_mem {α : Type} (l : List α) (d : α) (h : l ≠ []) : l.getLastD d ∈ l := by
  induction l generalizing d with
  | nil => exact absurd rfl h
  | cons a l ih =>
    cases l with
    | nil => simp
    | cons b l =>
      rw [List.getLastD_cons]
      exact List.mem_cons_of_mem a (ih b (by simp))

/-- Claim C8: starting from a state whose stored envelope is nonnegative (and
finite — automatic in exact arithmetic), after `analyze_envelope` the stored
envelope, all `frameCount` scratch entries and the value pushed into the
3-slot history ring are nonnegative, and every smoothed value is either
exactly 0 (the sub-epsilon/non-finite coercion) or at least
`SMALL_EPSILON`. -/
theorem C8_analyze_envelope_invariant (st : State) (samples : List (List FV)) (n : ℕ)
    (h0 : 0 ≤ st.envelope) (hn : 0 < n) (hlen : ∀ ch ∈ samples, n ≤ ch.length) :
    0 ≤ (analyze_envelope st samples n).1.envelope ∧
    ((analyze_envelope st samples n).1.envelope = 0 ∨
      SMALL_EPSILON ≤ (analyze_envelope st samples n).1.envelope) ∧
    (analyze_envelope st samples n).2.length = n ∧
    (∀ v ∈ (analyze_envelope st samples n).2,
      0 ≤ v ∧ (v = 0 ∨ SMALL_EPSILON ≤ v)) ∧
    (analyze_envelope st samples n).1.prev_env_vals
        (histIdx (analyze_envelope st samples n).1.prev_env_pos) =
      (analyze_envelope st samples n).1.envelope := by
  have heps : (0 : ℝ) < SMALL_EPSILON := by norm_num [SMALL_EPSILON]
  have hQ0 : ∀ v : ℝ, v = 0 ∨ SMALL_EPSILON ≤ v → 0 ≤ v := by
    intro v hv
    rcases hv with rfl | hv
    · exact le_refl 0
    · linarith
  rw [analyze_envelope, if_neg (Nat.pos_iff_ne_zero.mp hn)]
  have hblen : (envelope_scratch st samples n).length = n :=
    envelope_scratch_length st samples n hlen
  have hbne : envelope_scratch st samples n ≠ [] := by
    intro hcon
    rw [hcon] at hblen
    simp at hblen
    omega
  have hlast : (envelope_scratch st samples n).getLastD st.envelope ∈
      envelope_scratch st samples n := getLastD_mem _ _ hbne
  have hlastQ := envelope_scratch_inv st samples n _ hlast
  refine ⟨hQ0 _ hlastQ, hlastQ, hblen, ?_, ?_⟩
  · intro v hv
    have := envelope_scratch_inv st samples n v hv
    exact ⟨hQ0 v this, this⟩
  · exact Function.update_same _ _ _

/-- Witness for C8 at the concrete state `zeroState` and a concrete
two-sample stereo-less block. -/
theorem C8_analyze_envelope_invariant_witness :
    0 ≤ (analyze_envelope zeroState [[FV.fin 1, FV.fin 2]] 2).1.envelope ∧
    ((analyze_envelope zeroState [[FV.fin 1, FV.fin 2]] 2).1.envelope = 0 ∨
      SMALL_EPSILON ≤ (analyze_envelope zeroState [[FV.fin 1, FV.fin 2]] 2).1.envelope) ∧
    (analyze_envelope zeroState [[FV.fin 1, FV.fin 2]] 2).2.length = 2 ∧
    (∀ v ∈ (analyze_envelope zeroState [[FV.fin 1, FV.fin 2]] 2).2,
      0 ≤ v ∧ (v = 0 ∨ SMALL_EPSILON ≤ v)) ∧
    (analyze_envelope zeroState [[FV.fin 1, FV.fin 2]] 2).1.prev_env_vals
        (histIdx (analyze_envelope zeroState [[FV.fin 1, FV.fin 2]] 2).1.prev_env_pos) =
      (analyze_envelope zeroState [[FV.fin 1, FV.fin 2]] 2).1.envelope := by
  refine C8_analyze_envelope_invariant zeroState [[FV.fin 1, FV.fin 2]] 2 (le_refl 0)
    (by norm_num) ?_
  intro ch hch
  simp only [List.mem_singleton] at hch
  subst hch
  simp

/-! Field characterizations of `limiter_v2_update`, shared by several
claims. -/

theorem limiter_v2_update_threshold_db (st : State) (s : Settings) (r c : ℕ) :
    (limiter_v2_update st s r c).threshold_db = s.threshold := by
  simp only [limiter_v2_update, apply_settings, new_lookahead_samples,
    update_lookahead_buffers]
  repeat' split
  all_goals rfl

theorem limiter_v2_update_output_gain_db (st : State) (s : Settings) (r c : ℕ) :
    (limiter_v2_update st s r c).output_gain_db = s.output_gain := by
  simp only [limiter_v2_update, apply_settings, new_lookahead_samples,
    update_lookahead_buffers]
  repeat' split
  all_goals rfl

theorem limiter_v2_update_release_time_ms (st : State) (s : Settings) (r c : ℕ) :
    (limiter_v2_update st s r c).release_time_ms =
      max MIN_RELEASE_MS (min MAX_RELEASE_MS s.release_time) := by
  simp only [limiter_v2_update, apply_settings, new_lookahead_samples,
    update_lookahead_buffers]
  repeat' split
  all_goals rfl

theorem limiter_v2_update_lookahead_enabled (st : State) (s : Settings) (r c : ℕ) :
    (limiter_v2_update st s r c).lookahead_enabled = s.lookahead_enabled := by
  simp only [limiter_v2_update, apply_settings, new_lookahead_samples,
    update_lookahead_buffers]
  repeat' split
  all_goals rfl

theorem limiter_v2_update_lookahead_time_ms (st : State) (s : Settings) (r c : ℕ) :
    (limiter_v2_update st s r c).lookahead_time_ms = normalized_lookahead_ms s := by
  simp only [limiter_v2_update, apply_settings, new_lookahead_samples,
    update_lookahead_buffers]
  repeat' split
  all_goals rfl

theorem limiter_v2_update_sample_rate (st : State) (s : Settings) (r c : ℕ) :
    (limiter_v2_update st s r c).sample_rate = effective_sample_rate r := by
  simp only [limiter_v2_update, apply_settings, new_lookahead_samples,
    update_lookahead_buffers]
  repeat' split
  all_goals first
    | rfl
    | simp_all

theorem limiter_v2_update_num_channels (st : State) (s : Settings) (r c : ℕ) :
    (limiter_v2_update st s r c).num_channels = effective_channels c := by
  simp only [limiter_v2_update, apply_settings, new_lookahead_samples,
    update_lookahead_buffers]
  repeat' split
  all_goals first
    | rfl
    | simp_all

theorem normalized_lookahead_ms_range (s : Settings) (h : s.lookahead_enabled = true) :
    MIN_LOOKAHEAD_MS ≤ normalized_lookahead_ms s ∧
      normalized_lookahead_ms s ≤ MAX_LOOKAHEAD_MS := by
  have hminmax : MIN_LOOKAHEAD_MS ≤ MAX_LOOKAHEAD_MS := by
    norm_num [MIN_LOOKAHEAD_MS, MAX_LOOKAHEAD_MS]
  rw [normalized_lookahead_ms]
  by_cases hlt : max 0 (min MAX_LOOKAHEAD_MS s.lookahead_time_ms) < MIN_LOOKAHEAD_MS
  · rw [if_pos ⟨h, hlt⟩]
    exact ⟨le_refl _, hminmax⟩
  · rw [if_neg (by simp [hlt]), if_neg (by simp [h])]
    refine ⟨not_lt.mp hlt, ?_⟩
    exact max_le (by norm_num [MAX_LOOKAHEAD_MS]) (min_le_left _ _)

/-- Claim C4 (amended): `limiter_v2_update` clamps `release_time_ms` into
[1, 1000] and `lookahead_time_ms` into [0.1, 20] when lookahead is enabled,
but it stores `threshold_db` and `output_gain_db` exactly as supplied,
without clamping them into [-60, 0] and [-20, 20] (those ranges are only
enforced by the UI sliders). -/
theorem C4_update_clamping (st : State) (s : Settings) (r c : ℕ) :
    MIN_RELEASE_MS ≤ (limiter_v2_update st s r c).release_time_ms ∧
    (limiter_v2_update st s r c).release_time_ms ≤ MAX_RELEASE_MS ∧
    ((limiter_v2_update st s r c).lookahead_enabled = true →
      MIN_LOOKAHEAD_MS ≤ (limiter_v2_update st s r c).lookahead_time_ms ∧
      (limiter_v2_update st s r c).lookahead_time_ms ≤ MAX_LOOKAHEAD_MS) ∧
    (limiter_v2_update st s r c).threshold_db = s.threshold ∧
    (limiter_v2_update st s r c).output_gain_db = s.output_gain := by
  refine ⟨?_, ?_, ?_, limiter_v2_update_threshold_db st s r c,
    limiter_v2_update_output_gain_db st s r c⟩
  · rw [limiter_v2_update_release_time_ms]
    exact le_max_left _ _
  · rw [limiter_v2_update_release_time_ms]
    exact max_le (by norm_num [MIN_RELEASE_MS, MAX_RELEASE_MS]) (min_le_left _ _)
  · intro hen
    rw [limiter_v2_update_lookahead_enabled] at hen
    rw [limiter_v2_update_lookahead_time_ms]
    exact normalized_lookahead_ms_range s hen

/-- Witness for the amended C4 at concrete out-of-range settings: the release
and lookahead times come back clamped, the threshold and output gain come
back raw. -/
theorem C4_update_clamping_witness :
    MIN_RELEASE_MS ≤ (limiter_v2_update zeroState badSettings 48000 2).release_time_ms ∧
    (limiter_v2_update zeroState badSettings 48000 2).release_time_ms ≤ MAX_RELEASE_MS ∧
    (MIN_LOOKAHEAD_MS ≤ (limiter_v2_update zeroState badSettings 48000 2).lookahead_time_ms ∧
      (limiter_v2_update zeroState badSettings 48000 2).lookahead_time_ms ≤
        MAX_LOOKAHEAD_MS) ∧
    (limiter_v2_update zeroState badSettings 48000 2).threshold_db = 10 ∧
    (limiter_v2_update zeroState badSettings 48000 2).output_gain_db = 30 := by
  have h := C4_update_clamping zeroState badSettings 48000 2
  have hen : (limiter_v2_update zeroState badSettings 48000 2).lookahead_enabled = true := by
    rw [limiter_v2_update_lookahead_enabled]
    rfl
  exact ⟨h.1, h.2.1, h.2.2.1 hen, h.2.2.2.1, h.2.2.2.2⟩

/-- Counterexample to C4 as stated: with raw threshold 10 dB and raw output
gain 30 dB, `limiter_v2_update` stores both values unchanged, so the stored
`threshold_db` does not lie in [-60, 0] and the stored `output_gain_db` does
not lie in [-20, 20]. -/
theorem C4_no_threshold_clamp_counterexample :
    (limiter_v2_update zeroState badSettings 48000 2).threshold_db = 10 ∧
    (limiter_v2_update zeroState badSettings 48000 2).output_gain_db = 30 ∧
    ¬ ((MIN_THRESHOLD_DB ≤ (limiter_v2_update zeroState badSettings 48000 2).threshold_db ∧
        (limiter_v2_update zeroState badSettings 48000 2).threshold_db ≤ MAX_THRESHOLD_DB) ∧
      (MIN_OUTPUT_GAIN_DB ≤
          (limiter_v2_update zeroState badSettings 48000 2).output_gain_db ∧
        (limiter_v2_update zeroState badSettings 48000 2).output_gain_db ≤
          MAX_OUTPUT_GAIN_DB)) := by
  have h1 : (limiter_v2_update zeroState badSettings 48000 2).threshold_db = 10 :=
    limiter_v2_update_threshold_db zeroState badSettings 48000 2
  have h2 : (limiter_v2_update zeroState badSettings 48000 2).output_gain_db = 30 :=
    limiter_v2_update_output_gain_db zeroState badSettings 48000 2
  refine ⟨h1, h2, ?_⟩
  intro hcon
  rw [h1] at hcon
  have := hcon.1.2
  norm_num [MAX_THRESHOLD_DB] at this

/-! Finiteness of everything `process_compression` writes, shared by C2 and
C3. -/

theorem apply_gain_sample_isfinite (g : ℝ) (x : FV) :
    (apply_gain_sample g x).isfinite = true := by
  cases x <;> rfl

theorem mem_zipWith_apply_gain : ∀ (gains : List ℝ) (ch : List FV),
    ∀ v ∈ List.zipWith (fun g x => apply_gain_sample g x) gains ch,
      v.isfinite = true := by
  intro gains
  induction gains with
  | nil => simp
  | cons g gains ih =>
    intro ch
    cases ch with
    | nil => simp
    | cons x ch =>
      intro v hv
      simp only [List.zipWith_cons_cons, List.mem_cons] at hv
      rcases hv with rfl | hv
      · exact apply_gain_sample_isfinite g x
      · exact ih ch v hv

theorem compress_channels_length (bound : ℕ) (gains : List ℝ) (k : ℕ)
    (chans : List (List FV)) :
    (compress_channels bound gains k chans).length = chans.length := by
  induction chans generalizing k with
  | nil => rfl
  | cons ch rest ih => simpa [compress_channels] using ih (k + 1)

theorem getD_mem_or_nil {α : Type} (l : List (List α)) (c : ℕ) :
    l.getD c [] ∈ l ∨ l.getD c [] = [] := by
  by_cases h : c < l.length
  · left
    rw [List.getD_eq_getElem l [] h]
    exact List.getElem_mem h
  · right
    exact List.getD_eq_default l [] (by omega)

/-- Every sample `process_compression` writes to a processed channel is
finite; unprocessed channels keep their contents.  The hypothesis offers, per
channel, either all-finite contents (enough for an unprocessed channel) or a
length no larger than the block together with a processed index (so the
untouched tail beyond the gain list is empty). -/
theorem process_compression_finite (st : State) (chans : List (List FV))
    (envBuf : List ℝ) (n : ℕ) (hbuf : n ≤ envBuf.length)
    (hch : ∀ c : ℕ, (∀ v ∈ chans.getD c [], v.isfinite = true) ∨
      ((chans.getD c []).length ≤ n ∧ c < min st.num_channels MAX_AUDIO_CHANNELS)) :
    ∀ c : ℕ, ∀ v ∈ (process_compression st chans envBuf n).getD c [],
      v.isfinite = true := by
  intro c v hv
  by_cases hn : n = 0
  · rw [process_compression, if_pos (Or.inl hn)] at hv
    rcases hch c with hfin | ⟨hle, _⟩
    · exact hfin v hv
    · have hnil : chans.getD c [] = [] := List.eq_nil_of_length_eq_zero (by omega)
      rw [hnil] at hv
      simp at hv
  · rw [process_compression, if_neg (by omega : ¬(n = 0 ∨ envBuf.length < n))] at hv
    by_cases hcl : c < chans.length
    · rw [compress_channels_getD _ _ 0 chans c hcl] at hv
      by_cases hcb : 0 + c < min st.num_channels MAX_AUDIO_CHANNELS
      · rw [if_pos hcb] at hv
        rcases List.mem_append.mp hv with h | h
        · exact mem_zipWith_apply_gain _ _ v h
        · have hgl : ((envBuf.take n).map (final_gain st)).length = n := by
            simp only [List.length_map, List.length_take]
            omega
          rw [hgl] at h
          rcases hch c with hfin | ⟨hle, _⟩
          · exact hfin v (List.drop_subset _ _ h)
          · rw [List.drop_eq_nil_of_le hle] at h
            simp at h
      · rw [if_neg hcb] at hv
        rcases hch c with hfin | ⟨_, hlt⟩
        · exact hfin v hv
        · exact absurd (by omega : 0 + c < min st.num_channels MAX_AUDIO_CHANNELS) hcb
    · have hl := compress_channels_length (min st.num_channels MAX_AUDIO_CHANNELS)
        ((envBuf.take n).map (final_gain st)) 0 chans
      rw [List.getD_eq_default _ [] (by omega)] at hv
      simp at hv

/-- Positional description of the lookahead delay loop: output channel `c` is
the input channel when the loop did not reach it (fuel `k` exhausted, ring
list exhausted, or the defensive empty-ring break), and otherwise is the
push-pop of the input channel through its ring (only possible for `c < k`).
The output always has one block per input block. -/
theorem delay_go_zero (n : ℕ) (rs bs : List (List FV)) : delay_go n rs bs 0 = (rs, bs) := by
  cases rs <;> cases bs <;> rfl

theorem delay_go_nil_rings (n : ℕ) (bs : List (List FV)) (k : ℕ) :
    delay_go n [] bs (k + 1) = ([], bs) := by
  cases bs <;> rfl

theorem delay_go_nil_blocks (n : ℕ) (r : List FV) (rs : List (List FV)) (k : ℕ) :
    delay_go n (r :: rs) [] (k + 1) = (r :: rs, []) := rfl

theorem delay_go_cons (n : ℕ) (r : List FV) (rs : List (List FV)) (b : List FV)
    (bs : List (List FV)) (k : ℕ) :
    delay_go n (r :: rs) (b :: bs) (k + 1) =
      if r.isEmpty then (r :: rs, b :: bs)
      else
        ((circlebuf_push_pop r b n).1 :: (delay_go n rs bs k).1,
          (circlebuf_push_pop r b n).2 :: (delay_go n rs bs k).2) := rfl

theorem delay_go_spec (n : ℕ) : ∀ (bs rs : List (List FV)) (k : ℕ),
    (delay_go n rs bs k).2.length = bs.length ∧
    (∀ c : ℕ, k ≤ c → (delay_go n rs bs k).2.getD c [] = bs.getD c []) ∧
    (∀ c : ℕ, (delay_go n rs bs k).2.getD c [] = bs.getD c [] ∨
      (c < k ∧ (delay_go n rs bs k).2.getD c [] =
        (rs.getD c [] ++ (bs.getD c []).take n).take n ++ (bs.getD c []).drop n)) := by
  intro bs
  induction bs with
  | nil =>
    intro rs k
    match rs, k with
    | rs, 0 => rw [delay_go_zero]; exact ⟨rfl, fun c _ => rfl, fun c => Or.inl rfl⟩
    | [], k + 1 => rw [delay_go_nil_rings]; exact ⟨rfl, fun c _ => rfl, fun c => Or.inl rfl⟩
    | r :: rs, k + 1 =>
      rw [delay_go_nil_blocks]
      exact ⟨rfl, fun c _ => rfl, fun c => Or.inl rfl⟩
  | cons b bs ih =>
    intro rs k
    match rs, k with
    | rs, 0 => rw [delay_go_zero]; exact ⟨rfl, fun c _ => rfl, fun c => Or.inl rfl⟩
    | [], k + 1 => rw [delay_go_nil_rings]; exact ⟨rfl, fun c _ => rfl, fun c => Or.inl rfl⟩
    | r :: rs, k + 1 =>
      rw [delay_go_cons]
      by_cases hre : r.isEmpty = true
      · rw [if_pos hre]
        exact ⟨rfl, fun c _ => rfl, fun c => Or.inl rfl⟩
      · rw [if_neg hre]
        obtain ⟨ihl, ihk, ihc⟩ := ih rs k
        refine ⟨by simpa using ihl, ?_, ?_⟩
        · intro c hc
          match c with
          | c + 1 =>
            simp only [List.getD_cons_succ]
            exact ihk c (by omega)
        · intro c
          match c with
          | 0 =>
            right
            exact ⟨by omega, rfl⟩
          | c + 1 =>
            simp only [List.getD_cons_succ]
            rcases ihc c with h | ⟨hck, h⟩
            · exact Or.inl h
            · exact Or.inr ⟨by omega, h⟩

theorem analyze_envelope_num_channels (st : State) (samples : List (List FV)) (n : ℕ) :
    (analyze_envelope st samples n).1.num_channels = st.num_channels := by
  rw [analyze_envelope]
  split <;> rfl

theorem analyze_envelope_scratch (st : State) (samples : List (List FV)) (n : ℕ)
    (hn : n ≠ 0) :
    (analyze_envelope st samples n).2 = envelope_scratch st samples n := by
  rw [analyze_envelope, if_neg hn]

/-- The processing path of `limiter_v2_filter_audio`, written out: analysis,
then the (possibly skipped) delay, then compression against the delayed
block. -/
theorem limiter_v2_filter_audio_out (st : State) (samples : List (List FV)) (frames : ℕ)
    (h : ¬(frames = 0 ∨ st.sample_rate = 0 ∨ st.num_channels = 0)) :
    (limiter_v2_filter_audio st samples frames).2 =
      process_compression
        { (analyze_envelope st samples frames).1 with
            lookahead_circbuf :=
              (if st.lookahead_enabled = true ∧ st.lookahead_buffers_initialized = true ∧
                  0 < st.lookahead_samples then
                delay_go frames (analyze_envelope st samples frames).1.lookahead_circbuf
                  samples
                  (min (analyze_envelope st samples frames).1.num_channels
                    MAX_AUDIO_CHANNELS)
              else ((analyze_envelope st samples frames).1.lookahead_circbuf, samples)).1 }
        (if st.lookahead_enabled = true ∧ st.lookahead_buffers_initialized = true ∧
            0 < st.lookahead_samples then
          delay_go frames (analyze_envelope st samples frames).1.lookahead_circbuf samples
            (min (analyze_envelope st samples frames).1.num_channels MAX_AUDIO_CHANNELS)
        else ((analyze_envelope st samples frames).1.lookahead_circbuf, samples)).2
        (analyze_envelope st samples frames).2 frames := by
  rw [limiter_v2_filter_audio, if_neg h]

/-- Claim C2: for every block whose input samples are all finite (across all
channels, any block length, and any combination of the lookahead, true-peak
and adaptive-release toggles encoded in the state), every sample written back
by `limiter_v2_filter_audio` is finite: non-finite gains cannot arise in
exact arithmetic and non-finite samples are zeroed before multiplication. -/
theorem C2_filter_audio_finite (st : State) (samples : List (List FV)) (frames : ℕ)
    (hfin : ∀ ch ∈ samples, ∀ v ∈ ch, v.isfinite = true)
    (hlen : ∀ ch ∈ samples, ch.length = frames) :
    ∀ c : ℕ, ∀ v ∈ (limiter_v2_filter_audio st samples frames).2.getD c [],
      v.isfinite = true := by
  have hsfin : ∀ c : ℕ, ∀ v ∈ samples.getD c [], v.isfinite = true := by
    intro c v hv
    rcases getD_mem_or_nil samples c with h | h
    · exact hfin _ h v hv
    · rw [h] at hv
      simp at hv
  by_cases hg : frames = 0 ∨ st.sample_rate = 0 ∨ st.num_channels = 0
  · intro c v hv
    rw [limiter_v2_filter_audio, if_pos hg] at hv
    exact hsfin c v hv
  · intro c v hv
    rw [limiter_v2_filter_audio_out st samples frames hg] at hv
    have hframes : frames ≠ 0 := by
      intro hcon
      exact hg (Or.inl hcon)
    have hbuf : frames ≤ (analyze_envelope st samples frames).2.length := by
      rw [analyze_envelope_scratch st samples frames hframes,
        envelope_scratch_length st samples frames (fun ch hch => le_of_eq (hlen ch hch).symm)]
    refine process_compression_finite _ _ _ frames hbuf ?_ c v hv
    intro c2
    by_cases hla : st.lookahead_enabled = true ∧ st.lookahead_buffers_initialized = true ∧
        0 < st.lookahead_samples
    · rw [if_pos hla]
      obtain ⟨-, -, hspec⟩ := delay_go_spec frames samples
        (analyze_envelope st samples frames).1.lookahead_circbuf
        (min (analyze_envelope st samples frames).1.num_channels MAX_AUDIO_CHANNELS)
      rcases hspec c2 with h | ⟨hck, h⟩
      · left
        rw [h]
        exact hsfin c2
      · right
        constructor
        · rw [h]
          have hblen : (samples.getD c2 []).length ≤ frames := by
            rcases getD_mem_or_nil samples c2 with hm | hm
            · exact le_of_eq (hlen _ hm)
            · rw [hm]
              simp
          rw [List.length_append, List.length_take, List.length_drop]
          omega
        · simpa [analyze_envelope_num_channels] using hck
    · rw [if_neg hla]
      left
      exact hsfin c2

/-- Witness for C2 at the concrete state `zeroState` and a concrete
one-channel, one-sample finite block. -/
theorem getD_head_mem {α : Type} (l : List α) (d : α) (h : l ≠ []) : l.getD 0 d ∈ l := by
  cases l with
  | nil => exact absurd rfl h
  | cons a l => simp

theorem C2_filter_audio_finite_witness :
    (((limiter_v2_filter_audio zeroState [[FV.fin 1]] 1).2.getD 0 []).getD 0
        FV.nonfin).isfinite = true := by
  have hfin : ∀ ch ∈ [[FV.fin 1]], ∀ v ∈ ch, FV.isfinite v = true := by
    intro ch hch v hv
    simp only [List.mem_singleton] at hch
    subst hch
    simp only [List.mem_singleton] at hv
    subst hv
    rfl
  have hlen : ∀ ch ∈ [[FV.fin 1]], ch.length = 1 := by
    intro ch hch
    simp only [List.mem_singleton] at hch
    subst hch
    rfl
  have hg : ¬((1 : ℕ) = 0 ∨ zeroState.sample_rate = 0 ∨ zeroState.num_channels = 0) := by
    norm_num [zeroState]
  have hblen : (analyze_envelope zeroState [[FV.fin 1]] 1).2.length = 1 := by
    rw [analyze_envelope_scratch _ _ _ (by norm_num)]
    exact envelope_scratch_length _ _ _ (fun ch hch => le_of_eq (hlen ch hch).symm)
  have hne : (limiter_v2_filter_audio zeroState [[FV.fin 1]] 1).2.getD 0 [] ≠ [] := by
    rw [limiter_v2_filter_audio_out zeroState [[FV.fin 1]] 1 hg]
    have hla : ¬(zeroState.lookahead_enabled = true ∧
        zeroState.lookahead_buffers_initialized = true ∧
        0 < zeroState.lookahead_samples) := by
      simp [zeroState]
    rw [if_neg hla]
    have hguard2 : ¬((1 : ℕ) = 0 ∨ (analyze_envelope zeroState [[FV.fin 1]] 1).2.length < 1) := by
      rw [hblen]
      norm_num
    rw [process_compression, if_neg hguard2]
    rw [compress_channels_getD _ _ 0 _ 0 (by norm_num)]
    rw [if_pos (by
      show 0 + 0 <
        min (analyze_envelope zeroState [[FV.fin 1]] 1).1.num_channels MAX_AUDIO_CHANNELS
      rw [analyze_envelope_num_channels]
      norm_num [zeroState, MAX_AUDIO_CHANNELS])]
    intro hcon
    have hlencon := congrArg List.length hcon
    rw [List.length_append, List.length_zipWith, List.length_map, List.length_take,
      List.length_drop, hblen] at hlencon
    simp only [List.getD_cons_zero, List.length_nil, List.length_cons] at hlencon
    omega
  exact C2_filter_audio_finite zeroState [[FV.fin 1]] 1 hfin hlen 0 _
    (getD_head_mem _ _ hne)

/-! Facts about the lookahead rebuild in `limiter_v2_update`, used by C3. -/

theorem effective_sample_rate_pos (r : ℕ) : 0 < effective_sample_rate r := by
  rw [effective_sample_rate]
  split
  · norm_num
  · omega

theorem lookahead_samples_of_pos (sr : ℕ) (t : ℝ) : 1 ≤ lookahead_samples_of sr t := by
  simp only [lookahead_samples_of]
  split
  · exact le_refl 1
  · omega

theorem apply_settings_sample_rate (st : State) (s : Settings) (r c : ℕ) :
    (apply_settings st s r c).sample_rate = effective_sample_rate r := by
  simp only [apply_settings]
  repeat' split
  all_goals first
    | rfl
    | simp_all

theorem apply_settings_num_channels (st : State) (s : Settings) (r c : ℕ) :
    (apply_settings st s r c).num_channels = effective_channels c := by
  simp only [apply_settings]
  repeat' split
  all_goals first
    | rfl
    | simp_all

theorem apply_settings_lookahead_enabled (st : State) (s : Settings) (r c : ℕ) :
    (apply_settings st s r c).lookahead_enabled = s.lookahead_enabled := by
  simp only [apply_settings]
  repeat' split
  all_goals rfl

theorem apply_settings_lookahead_time_ms (st : State) (s : Settings) (r c : ℕ) :
    (apply_settings st s r c).lookahead_time_ms = normalized_lookahead_ms s := by
  simp only [apply_settings]
  repeat' split
  all_goals rfl

theorem apply_settings_output_gain (st : State) (s : Settings) (r c : ℕ) :
    (apply_settings st s r c).output_gain = db_to_mul s.output_gain := by
  simp only [apply_settings]
  repeat' split
  all_goals rfl

theorem limiter_v2_update_output_gain (st : State) (s : Settings) (r c : ℕ) :
    (limiter_v2_update st s r c).output_gain = db_to_mul s.output_gain := by
  simp only [limiter_v2_update, apply_settings, new_lookahead_samples,
    update_lookahead_buffers]
  repeat' split
  all_goals rfl

theorem limiter_v2_update_threshold_db' (st : State) (s : Settings) (r c : ℕ) :
    (limiter_v2_update st s r c).threshold_db = s.threshold :=
  limiter_v2_update_threshold_db st s r c

theorem new_lookahead_samples_apply (st : State) (s : Settings) (r c : ℕ)
    (hen : s.lookahead_enabled = true) (hc : 0 < effective_channels c) :
    new_lookahead_samples (apply_settings st s r c) =
      lookahead_samples_of (effective_sample_rate r) (normalized_lookahead_ms s) := by
  rw [new_lookahead_samples, if_pos, apply_settings_sample_rate,
    apply_settings_lookahead_time_ms]
  refine ⟨?_, ?_, ?_, ?_⟩
  · rw [apply_settings_lookahead_enabled]
    exact hen
  · rw [apply_settings_lookahead_time_ms]
    exact (normalized_lookahead_ms_range s hen).1
  · rw [apply_settings_sample_rate]
    exact effective_sample_rate_pos r
  · rw [apply_settings_num_channels]
    exact hc

/-- When the reset trigger fired with lookahead enabled and at least one
channel, `limiter_v2_update` rebuilds the delay line: one ring per effective
channel, each pre-filled with exactly `lookahead_samples` zeros, where
`lookahead_samples` is the round-to-nearest sample count (at least 1). -/
theorem limiter_v2_update_rebuild (st : State) (s : Settings) (r c : ℕ)
    (hreset : lookahead_reset_needed st s r c)
    (hen : s.lookahead_enabled = true) (hc : 0 < effective_channels c) :
    (limiter_v2_update st s r c).lookahead_samples =
      lookahead_samples_of (effective_sample_rate r) (normalized_lookahead_ms s) ∧
    (limiter_v2_update st s r c).lookahead_circbuf =
      List.replicate (effective_channels c)
        (List.replicate
          (lookahead_samples_of (effective_sample_rate r) (normalized_lookahead_ms s))
          (FV.fin 0)) ∧
    (limiter_v2_update st s r c).lookahead_buffers_initialized = true := by
  have hns := new_lookahead_samples_apply st s r c hen hc
  have hcond : ¬({ apply_settings st s r c with
      lookahead_samples := new_lookahead_samples (apply_settings st s r c) }.lookahead_enabled
        = false ∨
      { apply_settings st s r c with
        lookahead_samples :=
          new_lookahead_samples (apply_settings st s r c) }.lookahead_samples = 0 ∨
      { apply_settings st s r c with
        lookahead_samples :=
          new_lookahead_samples (apply_settings st s r c) }.num_channels = 0) := by
    push_neg
    refine ⟨?_, ?_, ?_⟩
    · show (apply_settings st s r c).lookahead_enabled ≠ false
      rw [apply_settings_lookahead_enabled, hen]
      simp
    · show new_lookahead_samples (apply_settings st s r c) ≠ 0
      rw [hns]
      have := lookahead_samples_of_pos (effective_sample_rate r) (normalized_lookahead_ms s)
      omega
    · show (apply_settings st s r c).num_channels ≠ 0
      rw [apply_settings_num_channels]
      omega
  simp only [limiter_v2_update]
  rw [if_pos hreset, update_lookahead_buffers, if_neg hcond]
  refine ⟨?_, ?_, rfl⟩
  · show new_lookahead_samples (apply_settings st s r c) = _
    exact hns
  · show List.replicate (apply_settings st s r c).num_channels
        (List.replicate (new_lookahead_samples (apply_settings st s r c)) (FV.fin 0)) = _
    rw [hns, apply_settings_num_channels]

/-- The push-`frameCount`/pop-`frameCount` pass over one channel ring: a ring
holding `D` samples still holds exactly `D` samples afterwards, and the
emitted block is the front of the buffered stream — the input delayed by
`D` samples. -/
theorem circlebuf_push_pop_spec (ring block : List FV) (n D : ℕ)
    (hr : ring.length = D) (hb : block.length = n) :
    (circlebuf_push_pop ring block n).1.length = D ∧
    (circlebuf_push_pop ring block n).2 = (ring ++ block).take n := by
  have htake : block.take n = block := by
    rw [← hb, List.take_length]
  have hdrop : block.drop n = [] := by
    rw [← hb, List.drop_length]
  rw [circlebuf_push_pop]
  constructor
  · simp only [List.length_drop, List.length_append, htake]
    omega
  · simp only [htake, hdrop, List.append_nil]

theorem analyze_envelope_preserves (st : State) (samples : List (List FV)) (n : ℕ) :
    (analyze_envelope st samples n).1.threshold_db = st.threshold_db ∧
    (analyze_envelope st samples n).1.output_gain = st.output_gain ∧
    (analyze_envelope st samples n).1.lookahead_circbuf = st.lookahead_circbuf ∧
    (analyze_envelope st samples n).1.lookahead_enabled = st.lookahead_enabled ∧
    (analyze_envelope st samples n).1.lookahead_buffers_initialized =
      st.lookahead_buffers_initialized ∧
    (analyze_envelope st samples n).1.lookahead_samples = st.lookahead_samples := by
  rw [analyze_envelope]
  split <;> exact ⟨rfl, rfl, rfl, rfl, rfl, rfl⟩

/-- Claim C3: when a reconfiguration enables lookahead, each channel's ring
is pre-filled with exactly `D = round(sampleRate · L / 1000)` zeros
(`D ≥ 1`); a push-`frameCount`/pop-`frameCount` pass leaves exactly `D`
samples in the ring and emits the front of the buffered stream (the input
delayed by `D`); and for a unit impulse at sample 0 of an otherwise silent
block of more than `D` samples, every output sample before index `D` is 0
and the output sample at index `D` is non-zero. -/
theorem C3_lookahead_delay (st : State) (s : Settings) (r c n : ℕ)
    (hreset : lookahead_reset_needed st s r c)
    (hen : s.lookahead_enabled = true)
    (hc : 0 < effective_channels c)
    (hn : lookahead_samples_of (effective_sample_rate r) (normalized_lookahead_ms s) < n) :
    (limiter_v2_update st s r c).lookahead_samples =
      lookahead_samples_of (effective_sample_rate r) (normalized_lookahead_ms s) ∧
    1 ≤ (limiter_v2_update st s r c).lookahead_samples ∧
    (limiter_v2_update st s r c).lookahead_circbuf =
      List.replicate (effective_channels c)
        (List.replicate (limiter_v2_update st s r c).lookahead_samples (FV.fin 0)) ∧
    (∀ ring block : List FV,
      ring.length = (limiter_v2_update st s r c).lookahead_samples →
      block.length = n →
      (circlebuf_push_pop ring block n).1.length =
          (limiter_v2_update st s r c).lookahead_samples ∧
        (circlebuf_push_pop ring block n).2 = (ring ++ block).take n) ∧
    (∀ i : ℕ, i < (limiter_v2_update st s r c).lookahead_samples →
      ((limiter_v2_filter_audio (limiter_v2_update st s r c)
          [FV.fin 1 :: List.replicate (n - 1) (FV.fin 0)] n).2.getD 0 []).getD i
          FV.nonfin =
        FV.fin 0) ∧
    ((limiter_v2_filter_audio (limiter_v2_update st s r c)
        [FV.fin 1 :: List.replicate (n - 1) (FV.fin 0)] n).2.getD 0 []).getD
        (limiter_v2_update st s r c).lookahead_samples FV.nonfin ≠
      FV.fin 0 := by
  obtain ⟨hD, hrings, hinit⟩ := limiter_v2_update_rebuild st s r c hreset hen hc
  set D := lookahead_samples_of (effective_sample_rate r) (normalized_lookahead_ms s)
    with hDdef
  set st' := limiter_v2_update st s r c with hst'
  set imp := FV.fin 1 :: List.replicate (n - 1) (FV.fin 0) with himp
  have hD1 : 1 ≤ D := lookahead_samples_of_pos _ _
  have hen' : st'.lookahead_enabled = true := by
    rw [hst', limiter_v2_update_lookahead_enabled]
    exact hen
  have hsr' : st'.sample_rate = effective_sample_rate r :=
    limiter_v2_update_sample_rate st s r c
  have hnc' : st'.num_channels = effective_channels c :=
    limiter_v2_update_num_channels st s r c
  have himp_len : imp.length = n := by
    rw [himp]
    simp only [List.length_cons, List.length_replicate]
    omega
  have hguard : ¬(n = 0 ∨ st'.sample_rate = 0 ∨ st'.num_channels = 0) := by
    push_neg
    refine ⟨by omega, ?_, ?_⟩
    · rw [hsr']
      exact (effective_sample_rate_pos r).ne'
    · rw [hnc']
      omega
  -- the push/pop conjunct does not depend on the block pipeline
  refine ⟨hD, by rw [hD]; exact hD1, by rw [hrings, hD], ?_, ?_⟩
  · intro ring block hring hblock
    rw [hD] at hring
    have := circlebuf_push_pop_spec ring block n D hring hblock
    rw [hD]
    exact this
  -- impulse response through the full block pipeline
  obtain ⟨hA_thr, hA_og, hA_cb, -, -, -⟩ := analyze_envelope_preserves st' [imp] n
  have hA_nc := analyze_envelope_num_channels st' [imp] n
  have hla : st'.lookahead_enabled = true ∧ st'.lookahead_buffers_initialized = true ∧
      0 < st'.lookahead_samples := ⟨hen', hinit, by rw [hD]; omega⟩
  have hfuel : min (analyze_envelope st' [imp] n).1.num_channels MAX_AUDIO_CHANNELS =
      effective_channels c := by
    rw [hA_nc, hnc', effective_channels]
    exact min_eq_left (min_le_right c MAX_AUDIO_CHANNELS)
  have hbuflen : (analyze_envelope st' [imp] n).2.length = n := by
    rw [analyze_envelope_scratch st' [imp] n (by omega)]
    refine envelope_scratch_length st' [imp] n ?_
    intro ch hch
    simp only [List.mem_singleton] at hch
    subst hch
    exact le_of_eq himp_len.symm
  -- the delayed channel 0
  obtain ⟨m, hm⟩ : ∃ m, effective_channels c = m + 1 := ⟨effective_channels c - 1, by omega⟩
  have hring0_ne : (List.replicate D (FV.fin 0)).isEmpty = false := by
    obtain ⟨k, hk⟩ : ∃ k, D = k + 1 := ⟨D - 1, by omega⟩
    rw [hk]
    rfl
  have hdelay : (delay_go n (analyze_envelope st' [imp] n).1.lookahead_circbuf [imp]
      (min (analyze_envelope st' [imp] n).1.num_channels MAX_AUDIO_CHANNELS)).2.getD 0 [] =
      (List.replicate D (FV.fin 0) ++ imp).take n := by
    rw [hA_cb, hrings, hfuel, hm, List.replicate_succ,
      delay_go_cons, if_neg (by rw [hring0_ne]; simp)]
    show (circlebuf_push_pop (List.replicate D (FV.fin 0)) imp n).2 = _
    exact (circlebuf_push_pop_spec _ _ n D (List.length_replicate _ _) himp_len).2
  have hdlen : (delay_go n (analyze_envelope st' [imp] n).1.lookahead_circbuf [imp]
      (min (analyze_envelope st' [imp] n).1.num_channels MAX_AUDIO_CHANNELS)).2.length
      = 1 :=
    (delay_go_spec n [imp] _ _).1
  -- the compressed output channel 0
  have hch0len : ((List.replicate D (FV.fin 0) ++ imp).take n).length = n := by
    rw [List.length_take, List.length_append, List.length_replicate, himp_len]
    omega
  set st2 : State :=
    { (analyze_envelope st' [imp] n).1 with
        lookahead_circbuf :=
          (delay_go n (analyze_envelope st' [imp] n).1.lookahead_circbuf [imp]
            (min (analyze_envelope st' [imp] n).1.num_channels
              MAX_AUDIO_CHANNELS)).1 } with hst2
  have hst2_nc : st2.num_channels = (analyze_envelope st' [imp] n).1.num_channels := rfl
  have hout : ∀ i : ℕ, i < n →
      ((limiter_v2_filter_audio st' [imp] n).2.getD 0 []).getD i FV.nonfin =
        apply_gain_sample
          (final_gain st2 ((analyze_envelope st' [imp] n).2.getD i 0))
          (((List.replicate D (FV.fin 0) ++ imp).take n).getD i FV.nonfin) := by
    intro i hi
    rw [limiter_v2_filter_audio_out st' [imp] n hguard, if_pos hla, ← hst2]
    rw [process_compression, if_neg (by omega : ¬(n = 0 ∨
      (analyze_envelope st' [imp] n).2.length < n))]
    rw [compress_channels_getD _ _ 0 _ 0 (by omega)]
    rw [if_pos (by
      show 0 + 0 < min st2.num_channels MAX_AUDIO_CHANNELS
      rw [hst2_nc, hA_nc, hnc']
      have h8 : 0 < MAX_AUDIO_CHANNELS := by norm_num [MAX_AUDIO_CHANNELS]
      omega)]
    rw [hdelay]
    have hglen : (((analyze_envelope st' [imp] n).2.take n).map
        (final_gain st2)).length = n := by
      simp only [List.length_map, List.length_take]
      omega
    rw [getD_append_left _ _ i _ (by
      rw [List.length_zipWith, hglen, hch0len]
      omega)]
    rw [getD_zipWith _ _ _ i _ (final_gain st2 0) FV.nonfin (by omega) (by omega)]
    rw [getD_map _ _ i 0 (by
      rw [List.length_take]
      omega)]
    rw [getD_take _ _ _ _ hi]
  refine ⟨?_, ?_⟩
  · intro i hiD
    rw [hD] at hiD
    rw [hout i (by omega)]
    have hi_ring : ((List.replicate D (FV.fin 0) ++ imp).take n).getD i FV.nonfin =
        FV.fin 0 := by
      rw [getD_take _ _ _ _ (by omega)]
      rw [getD_append_left _ _ i _ (by rw [List.length_replicate]; omega)]
      rw [List.getD_eq_getElem _ _ (by rw [List.length_replicate]; omega)]
      exact List.getElem_replicate _ _
    rw [hi_ring]
    show FV.fin (0 * _) = FV.fin 0
    rw [zero_mul]
  · rw [hD, hout D (by omega)]
    have hD_imp : ((List.replicate D (FV.fin 0) ++ imp).take n).getD D FV.nonfin =
        FV.fin 1 := by
      rw [getD_take _ _ _ _ (by omega)]
      rw [List.getD_append_right _ _ _ _ (by rw [List.length_replicate])]
      rw [List.length_replicate, Nat.sub_self]
      rw [himp]
      rfl
    rw [hD_imp]
    show FV.fin (1 * _) ≠ FV.fin 0
    rw [one_mul]
    have hog : st2.output_gain = db_to_mul s.output_gain := by
      show (analyze_envelope st' [imp] n).1.output_gain = _
      rw [hA_og, hst', limiter_v2_update_output_gain]
    have hgain : 0 < final_gain st2 ((analyze_envelope st' [imp] n).2.getD D 0) := by
      rw [final_gain, hog]
      exact mul_pos (gain_reduction_multiplier_pos _ _) (db_to_mul_pos _)
    intro hcon
    rw [FV.fin.injEq] at hcon
    exact absurd hcon (ne_of_gt hgain)

/-- Witness for C3 at 1000 Hz and 5 ms lookahead: `D = round(1000·5/1000) =
5` (the shifted floor of 5.5), and in a block of 8 samples the unit impulse
emerges at index 5 with zeros before it. -/
theorem C3_lookahead_delay_witness :
    (limiter_v2_update zeroState lookaheadSettings 1000 1).lookahead_samples = 5 ∧
    (∀ i : ℕ, i < (limiter_v2_update zeroState lookaheadSettings 1000 1).lookahead_samples →
      ((limiter_v2_filter_audio (limiter_v2_update zeroState lookaheadSettings 1000 1)
          [FV.fin 1 :: List.replicate (8 - 1) (FV.fin 0)] 8).2.getD 0 []).getD i
          FV.nonfin =
        FV.fin 0) ∧
    ((limiter_v2_filter_audio (limiter_v2_update zeroState lookaheadSettings 1000 1)
        [FV.fin 1 :: List.replicate (8 - 1) (FV.fin 0)] 8).2.getD 0 []).getD
        (limiter_v2_update zeroState lookaheadSettings 1000 1).lookahead_samples
        FV.nonfin ≠
      FV.fin 0 := by
  have hsr : effective_sample_rate 1000 = 1000 := by norm_num [effective_sample_rate]
  have hms : normalized_lookahead_ms lookaheadSettings = 5 := by
    rw [normalized_lookahead_ms]
    rw [if_neg ?c1, if_neg ?c2]
    case c1 =>
      intro hcon
      have := hcon.2
      norm_num [lookaheadSettings, MAX_LOOKAHEAD_MS, MIN_LOOKAHEAD_MS] at this
    case c2 => simp [lookaheadSettings]
    norm_num [lookaheadSettings, MAX_LOOKAHEAD_MS]
  have hD5 : lookahead_samples_of (effective_sample_rate 1000)
      (normalized_lookahead_ms lookaheadSettings) = 5 := by
    rw [hsr, hms, lookahead_samples_of]
    have hfl : ⌊((1000 : ℕ) : ℝ) * 5 / 1000 + 1 / 2⌋₊ = 5 := by
      have harg : ((1000 : ℕ) : ℝ) * 5 / 1000 + 1 / 2 = 11 / 2 := by norm_num
      rw [harg, Nat.floor_eq_iff (by norm_num)]
      norm_num
    simp only [hfl]
    norm_num
  have hreset : lookahead_reset_needed zeroState lookaheadSettings 1000 1 := by
    refine Or.inr (Or.inl ?_)
    simp [lookaheadSettings, zeroState]
  have hc : 0 < effective_channels 1 := by
    norm_num [effective_channels, MAX_AUDIO_CHANNELS]
  have hn : lookahead_samples_of (effective_sample_rate 1000)
      (normalized_lookahead_ms lookaheadSettings) < 8 := by
    rw [hD5]
    norm_num
  have h := C3_lookahead_delay zeroState lookaheadSettings 1000 1 8 hreset rfl hc hn
  exact ⟨by rw [h.1, hD5], h.2.2.2.2.1, h.2.2.2.2.2⟩

end

end LimiterV2
